import Mathlib

/-!
Verification of the field-generator node hierarchy in
`src/field/fieldgenerators.hxx` (BOUT-dev).

The C++ classes are shallowly embedded as follows.

* `BoutReal` (a `double`) is modelled as `ℚ` for the nodes whose code is
  pure arithmetic and comparison (min, max, round, value-pointer), and as
  `ℝ` for the arctangent node, whose code calls the transcendental libm
  functions `atan` / `atan2`.  Floating-point rounding is out of scope.
* A child generator (`FieldGeneratorPtr`) is modelled by its `generate`
  function `Context → ℚ` (resp. `Context → ℝ`); for the `clone` methods,
  which only validate and rearrange the incoming argument list, children
  are an arbitrary type `γ`.
* `throw ParseException(...)` is modelled by `Except ParseException`.
* `FieldMin::generate` / `FieldMax::generate` are additionally instrumented
  with a trace recording, in order, the index of the child on which
  `generate(pos)` is called, so that evaluation counts can be stated.
-/

/-- The evaluation context: the independent variables x, y, z, t
(the mesh reference is not consulted by any node modelled here). -/
structure Context where
  x : ℚ
  y : ℚ
  z : ℚ
  t : ℚ
deriving DecidableEq

/-- A concrete context used for concrete evaluations. -/
def pos0 : Context := ⟨0, 0, 0, 0⟩

/-- A child generator, represented by its `generate` function. -/
abbrev GenQ := Context → ℚ

/-- A constant child generator (models `FieldValue`-like constant children). -/
def constQ (c : ℚ) : GenQ := fun _ => c

/-- The exception thrown on arity violations (`ParseException`), carrying
the formatted message. -/
structure ParseException where
  msg : String
deriving DecidableEq

/-- Whether `needle` occurs at the start of `hay` (character lists). -/
def startsWithL : List Char → List Char → Bool
  | [], _ => true
  | _ :: _, [] => false
  | a :: as, b :: bs => (a == b) && startsWithL as bs

/-- Whether `needle` occurs as a contiguous substring of `hay`
(character lists); used to state "the message mentions the count". -/
def containsSub (needle : List Char) : List Char → Bool
  | [] => needle.isEmpty
  | c :: tl => startsWithL needle (c :: tl) || containsSub needle tl

/-! ## FieldMin / FieldMax (fieldgenerators.hxx lines 243-292) -/

/-- One update step of `FieldMin::generate`:
`if (val < result) result = val;` — the running result changes only on
strict `<`, so a tie keeps the current (earlier) value. -/
def minStep (result val : ℚ) : ℚ := if val < result then val else result

/-- One update step of `FieldMax::generate`:
`if (val > result) result = val;`. -/
def maxStep (result val : ℚ) : ℚ := if result < val then val else result

/-- Embedding of `FieldMin::generate`, instrumented with the list of child
indices on which `generate(pos)` is called, in call order.  The C++ body is

```
auto it = input.begin();
BoutReal result = (*it)->generate(pos);     -- seed: child 0
for (; it != input.end(); it++) {           -- note: starts again at begin()
  BoutReal val = (*it)->generate(pos);      -- children 0, 1, ..., n-1
  if (val < result) result = val;
}
return result;
```

Dereferencing `input.begin()` on an empty list is undefined, so the
embedding returns `none` for an empty child list. -/
def fieldMinRun (input : List GenQ) (pos : Context) : Option (ℚ × List ℕ) :=
  match input with
  | [] => none
  | g :: _ =>
    some (input.enum.foldl
      (fun acc ig => (minStep acc.1 (ig.2 pos), acc.2 ++ [ig.1]))
      (g pos, [0]))

/-- Embedding of `FieldMax::generate`, instrumented like `fieldMinRun`. -/
def fieldMaxRun (input : List GenQ) (pos : Context) : Option (ℚ × List ℕ) :=
  match input with
  | [] => none
  | g :: _ =>
    some (input.enum.foldl
      (fun acc ig => (maxStep acc.1 (ig.2 pos), acc.2 ++ [ig.1]))
      (g pos, [0]))

/-- The value returned by `FieldMin::generate` (`none` when the child list
is empty and the C++ behaviour is undefined). -/
def fieldMinGenerate (input : List GenQ) (pos : Context) : Option ℚ :=
  (fieldMinRun input pos).map (fun p => p.1)

/-- The value returned by `FieldMax::generate`. -/
def fieldMaxGenerate (input : List GenQ) (pos : Context) : Option ℚ :=
  (fieldMaxRun input pos).map (fun p => p.1)

/-- Embedding of `FieldMin::clone`: rejects an empty argument list, else
returns a `FieldMin` node holding exactly the given children. -/
def fieldMinClone {γ : Type} (args : List γ) : Except ParseException (List γ) :=
  if args.length = 0 then
    .error ⟨"min function must have some inputs"⟩
  else
    .ok args

/-- Embedding of `FieldMax::clone`. -/
def fieldMaxClone {γ : Type} (args : List γ) : Except ParseException (List γ) :=
  if args.length = 0 then
    .error ⟨"max function must have some inputs"⟩
  else
    .ok args

/-- The child list of a default-constructed `FieldMin` (`FieldMin() = default;`
value-initialises `input` to the empty list). -/
def fieldMinDefaultInput : List GenQ := []

/-- The child list of a default-constructed `FieldMax`. -/
def fieldMaxDefaultInput : List GenQ := []

/-! ## Templated unary / binary function nodes (lines 69-117) -/

/-- Embedding of `FieldGenOneArg<Op>::clone`: requires exactly one
argument; on violation throws with the `printf`-formatted message
`"Incorrect number of arguments to function. Expecting 1, got %lu"`.
On success builds the node from `args.front()`. -/
def fieldGenOneArgClone {γ : Type} (args : List γ) : Except ParseException γ :=
  match args with
  | [a] => .ok a
  | _ =>
    .error ⟨"Incorrect number of arguments to function. Expecting 1, got "
            ++ toString args.length⟩

/-- Embedding of `FieldGenOneArg<Op>::generate`: `Op(gen->generate(pos))`.
The template parameter `Op` is the wrapped native function. -/
def fieldGenOneArgGenerate (Op : ℚ → ℚ) (gen : GenQ) (pos : Context) : ℚ :=
  Op (gen pos)

/-- Embedding of `FieldGenOneArg<Op>::str`: renders as `"func(" + child + ")"`
whatever the wrapped function `Op` is. -/
def fieldGenOneArgStr (Op : ℚ → ℚ) (genStr : String) : String :=
  String.append (String.append "func(" genStr) ")"

/-- Embedding of `FieldGenTwoArg<Op>::clone`: requires exactly two
arguments (`args.size() != 2` throws), then builds the node from
`args.front()` (operand `A`) and `args.back()` (operand `B`); for a
two-element list `front` is the first and `back` the second element. -/
def fieldGenTwoArgClone {γ : Type} (args : List γ) :
    Except ParseException (γ × γ) :=
  match args with
  | [a, b] => .ok (a, b)
  | _ =>
    .error ⟨"Incorrect number of arguments to function. Expecting 2, got "
            ++ toString args.length⟩

/-- Embedding of `FieldGenTwoArg<Op>::generate`: `Op(A->generate(pos),
B->generate(pos))`. -/
def fieldGenTwoArgGenerate (Op : ℚ → ℚ → ℚ) (A B : GenQ) (pos : Context) : ℚ :=
  Op (A pos) (B pos)

/-- Embedding of `FieldGenTwoArg<Op>::str`: the source renders every such
node as `"cos(" + A + "," + B + ")"`, regardless of the wrapped `Op`. -/
def fieldGenTwoArgStr (Op : ℚ → ℚ → ℚ) (aStr bStr : String) : String :=
  String.append (String.append (String.append (String.append "cos(" aStr) ",") bStr) ")"

/-- Embedding of `FieldSin::str`: `"sin(" + gen->str() + ")"`. -/
def fieldSinStr (genStr : String) : String :=
  String.append (String.append "sin(" genStr) ")"

/-- Embedding of `FieldCos::str`: `"cos(" + gen->str() + ")"`. -/
def fieldCosStr (genStr : String) : String :=
  String.append (String.append "cos(" genStr) ")"

/-- Embedding of `FieldHeaviside::str`: `"H(" + gen->str() + ")"`. -/
def fieldHeavisideStr (genStr : String) : String :=
  String.append (String.append "H(" genStr) ")"

/-! ## FieldATan (lines 119-141) -/

/-- Embedding of `FieldATan::clone`: one argument gives a node with
`B == nullptr`, two arguments give a node with both operands, anything
else throws. -/
def fieldATanClone {γ : Type} (args : List γ) :
    Except ParseException (γ × Option γ) :=
  match args with
  | [a] => .ok (a, none)
  | [a, b] => .ok (a, some b)
  | _ =>
    .error ⟨"Incorrect number of arguments to atan function. Expecting 1 or 2, got "
            ++ toString args.length⟩

/-- The C/libm `atan2(y, x)`: the angle of the point `(x, y)`, i.e.
`arctan (y/x)` corrected by quadrant. -/
noncomputable def atan2R (y x : ℝ) : ℝ :=
  if 0 < x then Real.arctan (y / x)
  else if x < 0 then
    (if 0 ≤ y then Real.arctan (y / x) + Real.pi
     else Real.arctan (y / x) - Real.pi)
  else if 0 < y then Real.pi / 2
  else if y < 0 then -(Real.pi / 2)
  else 0

/-- Embedding of `FieldATan::generate`: `atan(A)` when `B == nullptr`,
else `atan2(A, B)`. -/
noncomputable def fieldATanGenerate (n : (Context → ℝ) × Option (Context → ℝ))
    (pos : Context) : ℝ :=
  match n.2 with
  | none => Real.arctan (n.1 pos)
  | some b => atan2R (n.1 pos) (b pos)

/-! ## FieldRound (lines 294-315) -/

/-- Embedding of `FieldRound::clone`: requires exactly one argument, with
the fixed message `"round function must have one input"` on violation. -/
def fieldRoundClone {γ : Type} (args : List γ) : Except ParseException γ :=
  match args with
  | [a] => .ok a
  | _ => .error ⟨"round function must have one input"⟩

/-- The C++ `static_cast<int>` applied to a real value: truncation toward
zero (floor for non-negative values, ceiling for negative ones). -/
def rattrunc (q : ℚ) : ℤ := if 0 ≤ q then ⌊q⌋ else ⌈q⌉

/-- Embedding of `FieldRound::generate`:

```
BoutReal val = gen->generate(pos);
if (val > 0.0) return static_cast<int>(val + 0.5);
return static_cast<int>(val - 0.5);
``` -/
def fieldRoundGenerate (gen : GenQ) (pos : Context) : ℚ :=
  let val := gen pos
  if 0 < val then (rattrunc (val + 1/2) : ℚ) else (rattrunc (val - 1/2) : ℚ)

/-! ## FieldValuePtr (lines 19-33) -/

/-- The caller-managed memory a `BoutReal*` points into: a map from
addresses to current cell contents. -/
def Mem : Type := ℕ → ℚ

/-- Overwriting one cell of the external memory (an external mutation
between `generate` calls). -/
def memUpdate (m : Mem) (a : ℕ) (v : ℚ) : Mem :=
  fun b => if b = a then v else m b

/-- Embedding of `FieldValuePtr::generate`: `return *ptr;` — the cell is
dereferenced afresh against the current memory on every call. -/
def fieldValuePtrGenerate (ptr : ℕ) (m : Mem) : Context → ℚ :=
  fun _ => m ptr

/-- Embedding of `FieldValuePtr::clone`: the argument list is `UNUSED`;
a new node bound to the same cell (the same `ptr`) is returned, whatever
the list. -/
def fieldValuePtrClone {γ : Type} (ptr : ℕ) (args : List γ) : ℕ :=
  ptr

/-! ## FieldMixmode (lines 341-357) -/

/-- A `FieldMixmode` node's stored state: its child expression and the
14-entry phase table set once at construction. -/
structure FieldMixmode where
  arg : GenQ
  phase : Fin 14 → ℚ

/-- Modelled from the spec: the translation unit defining
`FieldMixmode`'s constructor and `genRand` is not under `src/` (the header
only declares them, and documents `genRand` as a memoryless PRNG: "you
need to call it with a different seed each time").  Per the spec, the
constructor "derives 14 phase offsets deterministically from a single seed
value using a memoryless pseudo-random function"; the pseudo-random
function is passed here as the parameter `genRand`, applied to a per-mode
variation of the seed. -/
def mkFieldMixmode (genRand : ℚ → ℚ) (a : GenQ) (seed : ℚ) : FieldMixmode :=
  { arg := a, phase := fun i => genRand (seed + (i : ℕ)) }

/-- Modelled from the spec: `FieldMixmode::generate` is defined in the
missing translation unit.  Per the spec it "sums, over the 14 modes, a
cosine of (mode index × child-expression value + phase[mode index])" with
a per-mode amplitude weight; the cosine and the weight table (numeric
choices the spec leaves open) are parameters. -/
def fieldMixmodeGenerate (cosFn : ℚ → ℚ) (weight : Fin 14 → ℚ)
    (m : FieldMixmode) (pos : Context) : ℚ :=
  ∑ i : Fin 14, weight i * cosFn ((i : ℕ) * m.arg pos + m.phase i)

/-! ## Helper lemmas on folds -/

/-- A fold whose accumulator is a pair of independently-updated components
splits into two folds. -/
theorem foldl_prod_split {α β δ : Type} (f : β → α → β) (g : δ → α → δ)
    (l : List α) (b : β) (d : δ) :
    l.foldl (fun acc x => (f acc.1 x, g acc.2 x)) (b, d) =
      (l.foldl f b, l.foldl g d) := by
  induction l generalizing b d with
  | nil => rfl
  | cons a t ih => simp [List.foldl_cons, ih]

/-- Folding over `enumFrom` with a function that ignores the indices is
folding over the plain list. -/
theorem foldl_enumFrom_snd {α β : Type} (f : β → α → β) (l : List α)
    (n : ℕ) (b : β) :
    (l.enumFrom n).foldl (fun acc x => f acc x.2) b = l.foldl f b := by
  induction l generalizing n b with
  | nil => rfl
  | cons a t ih => simp [List.enumFrom_cons, List.foldl_cons, ih]

/-- Folding an append-one-element step accumulates the mapped list. -/
theorem foldl_trace {α : Type} (h : α → ℕ) (l : List α) (tr : List ℕ) :
    l.foldl (fun t x => t ++ [h x]) tr = tr ++ l.map h := by
  induction l generalizing tr with
  | nil => simp
  | cons a t ih => simp [List.foldl_cons, ih]

/-- The `FieldMin` update step is the lattice `min` (in particular a tie
keeps the current value). -/
theorem minStep_eq_min (r v : ℚ) : minStep r v = min r v := by
  unfold minStep
  rcases lt_or_ge v r with h | h
  · rw [if_pos h, min_eq_right h.le]
  · rw [if_neg (not_lt.mpr h), min_eq_left h]

/-- The `FieldMax` update step is the lattice `max`. -/
theorem maxStep_eq_max (r v : ℚ) : maxStep r v = max r v := by
  unfold maxStep
  rcases lt_or_ge r v with h | h
  · rw [if_pos h, max_eq_right h.le]
  · rw [if_neg (not_lt.mpr h), max_eq_left h]

/-- A `min`-fold is bounded by its seed. -/
theorem foldl_min_le_init (vs : List ℚ) (v0 : ℚ) : vs.foldl min v0 ≤ v0 := by
  induction vs generalizing v0 with
  | nil => exact le_refl _
  | cons a t ih =>
    exact le_trans (ih (min v0 a)) (min_le_left _ _)

/-- A `min`-fold is bounded by every list element. -/
theorem foldl_min_le_mem (vs : List ℚ) (v0 : ℚ) :
    ∀ v ∈ vs, vs.foldl min v0 ≤ v := by
  induction vs generalizing v0 with
  | nil => intro v hv; cases hv
  | cons a t ih =>
    intro v hv
    rcases List.mem_cons.mp hv with rfl | hv
    · exact le_trans (foldl_min_le_init t (min v0 v)) (min_le_right _ _)
    · exact ih (min v0 a) v hv

/-- A `min`-fold returns its seed or some list element. -/
theorem foldl_min_mem_or (vs : List ℚ) (v0 : ℚ) :
    vs.foldl min v0 = v0 ∨ vs.foldl min v0 ∈ vs := by
  induction vs generalizing v0 with
  | nil => exact Or.inl rfl
  | cons a t ih =>
    rcases ih (min v0 a) with h | h
    · rcases min_choice v0 a with h0 | h0
      · exact Or.inl (by rw [List.foldl_cons, h, h0])
      · exact Or.inr (by rw [List.foldl_cons, h, h0]; exact List.mem_cons_self a t)
    · exact Or.inr (List.mem_cons_of_mem a h)

/-- A `max`-fold dominates its seed. -/
theorem foldl_max_ge_init (vs : List ℚ) (v0 : ℚ) : v0 ≤ vs.foldl max v0 := by
  induction vs generalizing v0 with
  | nil => exact le_refl _
  | cons a t ih =>
    exact le_trans (le_max_left _ _) (ih (max v0 a))

/-- A `max`-fold dominates every list element. -/
theorem foldl_max_ge_mem (vs : List ℚ) (v0 : ℚ) :
    ∀ v ∈ vs, v ≤ vs.foldl max v0 := by
  induction vs generalizing v0 with
  | nil => intro v hv; cases hv
  | cons a t ih =>
    intro v hv
    rcases List.mem_cons.mp hv with rfl | hv
    · exact le_trans (le_max_right _ _) (foldl_max_ge_init t (max v0 v))
    · exact ih (max v0 a) v hv

/-- A `max`-fold returns its seed or some list element. -/
theorem foldl_max_mem_or (vs : List ℚ) (v0 : ℚ) :
    vs.foldl max v0 = v0 ∨ vs.foldl max v0 ∈ vs := by
  induction vs generalizing v0 with
  | nil => exact Or.inl rfl
  | cons a t ih =>
    rcases ih (max v0 a) with h | h
    · rcases max_choice v0 a with h0 | h0
      · exact Or.inl (by rw [List.foldl_cons, h, h0])
      · exact Or.inr (by rw [List.foldl_cons, h, h0]; exact List.mem_cons_self a t)
    · exact Or.inr (List.mem_cons_of_mem a h)

/-- Closed form of the instrumented `FieldMin::generate` on a non-empty
child list: the value is the `minStep`-fold of all child values seeded
with the first child's value, and the trace of `generate` calls is the
seeding call on child 0 followed by the scan over children 0..n-1. -/
theorem fieldMinRun_cons (g : GenQ) (rest : List GenQ) (pos : Context) :
    fieldMinRun (g :: rest) pos =
      some (((g :: rest).map (fun c => c pos)).foldl minStep (g pos),
            0 :: List.range (rest.length + 1)) := by
  have hdef : fieldMinRun (g :: rest) pos =
      some ((g :: rest).enum.foldl
        (fun acc ig => (minStep acc.1 (ig.2 pos), acc.2 ++ [ig.1]))
        (g pos, [0])) := rfl
  rw [hdef,
    foldl_prod_split (fun r (ig : ℕ × GenQ) => minStep r (ig.2 pos))
        (fun t ig => t ++ [ig.1])]
  have h1 : ((g :: rest).enum).foldl
      (fun r (ig : ℕ × GenQ) => minStep r (ig.2 pos)) (g pos) =
      ((g :: rest).map (fun c => c pos)).foldl minStep (g pos) := by
    rw [List.foldl_map]
    exact foldl_enumFrom_snd (fun r c => minStep r (c pos)) (g :: rest) 0 (g pos)
  have h2 : ((g :: rest).enum).foldl (fun t (ig : ℕ × GenQ) => t ++ [ig.1]) [0] =
      0 :: List.range (rest.length + 1) := by
    rw [foldl_trace (fun ig => ig.1) ((g :: rest).enum) [0]]
    have := List.enum_map_fst (g :: rest)
    simp only [List.length_cons] at this
    rw [show ((g :: rest).enum).map (fun ig => ig.1) =
          ((g :: rest).enum).map Prod.fst from rfl, this]
    rfl
  rw [h1, h2]

/-- Closed form of the instrumented `FieldMax::generate`, as for `min`. -/
theorem fieldMaxRun_cons (g : GenQ) (rest : List GenQ) (pos : Context) :
    fieldMaxRun (g :: rest) pos =
      some (((g :: rest).map (fun c => c pos)).foldl maxStep (g pos),
            0 :: List.range (rest.length + 1)) := by
  have hdef : fieldMaxRun (g :: rest) pos =
      some ((g :: rest).enum.foldl
        (fun acc ig => (maxStep acc.1 (ig.2 pos), acc.2 ++ [ig.1]))
        (g pos, [0])) := rfl
  rw [hdef,
    foldl_prod_split (fun r (ig : ℕ × GenQ) => maxStep r (ig.2 pos))
        (fun t ig => t ++ [ig.1])]
  have h1 : ((g :: rest).enum).foldl
      (fun r (ig : ℕ × GenQ) => maxStep r (ig.2 pos)) (g pos) =
      ((g :: rest).map (fun c => c pos)).foldl maxStep (g pos) := by
    rw [List.foldl_map]
    exact foldl_enumFrom_snd (fun r c => maxStep r (c pos)) (g :: rest) 0 (g pos)
  have h2 : ((g :: rest).enum).foldl (fun t (ig : ℕ × GenQ) => t ++ [ig.1]) [0] =
      0 :: List.range (rest.length + 1) := by
    rw [foldl_trace (fun ig => ig.1) ((g :: rest).enum) [0]]
    have := List.enum_map_fst (g :: rest)
    simp only [List.length_cons] at this
    rw [show ((g :: rest).enum).map (fun ig => ig.1) =
          ((g :: rest).enum).map Prod.fst from rfl, this]
    rfl
  rw [h1, h2]

/-! ## Claim theorems -/

/-- C1, counterexample: on the single-child list `[constQ 5]` the
instrumented `FieldMin::generate` / `FieldMax::generate` perform two
child `generate` calls, both on child 0 (the seeding call and the first
loop iteration, since the loop restarts at `begin()`), so the unique
child is evaluated twice, not "exactly once per call". -/
theorem c1_counterexample :
    fieldMinRun [constQ 5] pos0 = some (5, [0, 0]) ∧
    fieldMaxRun [constQ 5] pos0 = some (5, [0, 0]) ∧
    ([0, 0] : List ℕ).count 0 ≠ 1 := by
  refine ⟨?_, ?_, by decide⟩ <;> decide

/-- C1 (amended): for every `FieldMin`/`FieldMax` node with a non-empty
child list and every Context, `generate` performs a left-to-right scan
seeding the running result with the first child's value; the first child
is evaluated twice per call (the seeding call plus the first scan step)
and every other child exactly once, with no short-circuit; the running
result is updated only on strict `<` (min) / `>` (max), so a tie keeps
the earlier value. -/
theorem c1_minmax_scan (g : GenQ) (rest : List GenQ) (pos : Context) :
    fieldMinRun (g :: rest) pos =
      some (((g :: rest).map (fun c => c pos)).foldl minStep (g pos),
            0 :: List.range (rest.length + 1)) ∧
    fieldMaxRun (g :: rest) pos =
      some (((g :: rest).map (fun c => c pos)).foldl maxStep (g pos),
            0 :: List.range (rest.length + 1)) ∧
    (0 :: List.range (rest.length + 1)).count 0 = 2 ∧
    (∀ i : ℕ, 0 < i →
      (0 :: List.range (rest.length + 1)).count i =
        if i < rest.length + 1 then 1 else 0) ∧
    (∀ r v : ℚ, v < r → minStep r v = v) ∧
    (∀ r v : ℚ, ¬ v < r → minStep r v = r) ∧
    (∀ r v : ℚ, r < v → maxStep r v = v) ∧
    (∀ r v : ℚ, ¬ r < v → maxStep r v = r) := by
  refine ⟨fieldMinRun_cons g rest pos, fieldMaxRun_cons g rest pos, ?_, ?_, ?_, ?_, ?_, ?_⟩
  · rw [List.count_cons,
      List.count_eq_of_nodup (List.nodup_range (rest.length + 1))]
    simp [List.mem_range]
  · intro i hi
    rw [List.count_cons,
      List.count_eq_of_nodup (List.nodup_range (rest.length + 1))]
    have : ((0 : ℕ) == i) = false := by
      simp [Nat.ne_of_lt hi]
    rw [this]
    simp [List.mem_range]
  · intro r v h; unfold minStep; rw [if_pos h]
  · intro r v h; unfold minStep; rw [if_neg h]
  · intro r v h; unfold maxStep; rw [if_pos h]
  · intro r v h; unfold maxStep; rw [if_neg h]

/-- C1, witness: the scan theorem applied at concrete inputs. -/
theorem c1_minmax_scan_witness :
    fieldMinRun [constQ 7] pos0 =
      some (([7] : List ℚ).foldl minStep 7, [0, 0]) ∧
    ((0 : ℕ) :: List.range 1).count 1 = 0 ∧
    minStep 5 3 = 3 ∧ minStep 5 5 = 5 ∧ maxStep 3 5 = 5 ∧ maxStep 5 5 = 5 := by
  have h := c1_minmax_scan (constQ 7) [] pos0
  refine ⟨h.1, ?_, h.2.2.2.2.1 5 3 (by decide), h.2.2.2.2.2.1 5 5 (by decide),
    h.2.2.2.2.2.2.1 3 5 (by decide), h.2.2.2.2.2.2.2 5 5 (by decide)⟩
  have h2 := h.2.2.2.1 1 (by decide)
  simpa using h2

/-- C2: for every non-empty child list and every Context,
`FieldMin::generate` returns the minimum of the children's values and
`FieldMax::generate` the maximum; over `{3, 1, 2}` they yield `1` and `3`,
over a single-element list the element's value; `clone` with an empty
argument list throws a `ParseException`. -/
theorem c2_minmax_values {γ : Type} (g : GenQ) (rest : List GenQ) (pos : Context) :
    (∃ m, fieldMinGenerate (g :: rest) pos = some m ∧
       m ∈ (g :: rest).map (fun c => c pos) ∧
       ∀ v ∈ (g :: rest).map (fun c => c pos), m ≤ v) ∧
    (∃ m, fieldMaxGenerate (g :: rest) pos = some m ∧
       m ∈ (g :: rest).map (fun c => c pos) ∧
       ∀ v ∈ (g :: rest).map (fun c => c pos), v ≤ m) ∧
    fieldMinGenerate [constQ 3, constQ 1, constQ 2] pos = some 1 ∧
    fieldMaxGenerate [constQ 3, constQ 1, constQ 2] pos = some 3 ∧
    fieldMinGenerate [g] pos = some (g pos) ∧
    fieldMaxGenerate [g] pos = some (g pos) ∧
    fieldMinClone ([] : List γ) = .error ⟨"min function must have some inputs"⟩ ∧
    fieldMaxClone ([] : List γ) = .error ⟨"max function must have some inputs"⟩ := by
  have hmin : minStep = (min : ℚ → ℚ → ℚ) :=
    funext fun r => funext fun v => minStep_eq_min r v
  have hmax : maxStep = (max : ℚ → ℚ → ℚ) :=
    funext fun r => funext fun v => maxStep_eq_max r v
  refine ⟨?_, ?_, ?_, ?_, ?_, ?_, rfl, rfl⟩
  · refine ⟨((g :: rest).map (fun c => c pos)).foldl min (g pos), ?_, ?_, ?_⟩
    · unfold fieldMinGenerate
      rw [fieldMinRun_cons, hmin]
      rfl
    · rcases foldl_min_mem_or ((g :: rest).map (fun c => c pos)) (g pos) with h | h
      · rw [h, List.map_cons]; exact List.mem_cons_self _ _
      · exact h
    · exact foldl_min_le_mem _ _
  · refine ⟨((g :: rest).map (fun c => c pos)).foldl max (g pos), ?_, ?_, ?_⟩
    · unfold fieldMaxGenerate
      rw [fieldMaxRun_cons, hmax]
      rfl
    · rcases foldl_max_mem_or ((g :: rest).map (fun c => c pos)) (g pos) with h | h
      · rw [h, List.map_cons]; exact List.mem_cons_self _ _
      · exact h
    · exact foldl_max_ge_mem _ _
  · unfold fieldMinGenerate
    rw [fieldMinRun_cons]
    norm_num [constQ, minStep]
  · unfold fieldMaxGenerate
    rw [fieldMaxRun_cons]
    norm_num [constQ, maxStep]
  · unfold fieldMinGenerate
    rw [fieldMinRun_cons]
    simp [minStep]
  · unfold fieldMaxGenerate
    rw [fieldMaxRun_cons]
    simp [maxStep]

/-- C2, witness: the min/max value theorem applied at concrete inputs. -/
theorem c2_minmax_values_witness :
    (∃ m, fieldMinGenerate [constQ 3, constQ 1, constQ 2] pos0 = some m ∧ m ≤ 3) ∧
    fieldMinGenerate [constQ 3, constQ 1, constQ 2] pos0 = some 1 ∧
    fieldMaxGenerate [constQ 3, constQ 1, constQ 2] pos0 = some 3 ∧
    fieldMinGenerate [constQ 9] pos0 = some 9 ∧
    fieldMaxGenerate [constQ 9] pos0 = some 9 ∧
    fieldMinClone ([] : List ℕ) = .error ⟨"min function must have some inputs"⟩ := by
  have h := c2_minmax_values (γ := ℕ) (constQ 3) [constQ 1, constQ 2] pos0
  have h9 := c2_minmax_values (γ := ℕ) (constQ 9) [] pos0
  refine ⟨?_, h.2.2.1, h.2.2.2.1, h9.2.2.2.2.1, h9.2.2.2.2.2.1, h.2.2.2.2.2.2.1⟩
  obtain ⟨m, hm, _, hle⟩ := h.1
  exact ⟨m, hm, hle 3 (by decide)⟩

/-- C9: `FieldMin::generate`/`FieldMax::generate` dereference
`input.begin()` before any emptiness check, so the embedded total function
has a defined result exactly on non-empty child lists; every node produced
by `clone` has a non-empty child list, while the public default
constructors produce nodes with an empty child list, on which `generate`
has no defined result. -/
theorem c9_minmax_safety :
    (∀ pos, fieldMinGenerate [] pos = none ∧ fieldMaxGenerate [] pos = none) ∧
    (∀ (g : GenQ) (rest : List GenQ) (pos : Context),
      (fieldMinGenerate (g :: rest) pos).isSome = true ∧
      (fieldMaxGenerate (g :: rest) pos).isSome = true) ∧
    (∀ (γ : Type) (args : List γ) (node : List γ),
      fieldMinClone args = .ok node → node ≠ []) ∧
    (∀ (γ : Type) (args : List γ) (node : List γ),
      fieldMaxClone args = .ok node → node ≠ []) ∧
    (∀ pos, fieldMinGenerate fieldMinDefaultInput pos = none ∧
            fieldMaxGenerate fieldMaxDefaultInput pos = none) := by
  refine ⟨fun pos => ⟨rfl, rfl⟩, ?_, ?_, ?_, fun pos => ⟨rfl, rfl⟩⟩
  · intro g rest pos
    constructor
    · unfold fieldMinGenerate; rw [fieldMinRun_cons]; rfl
    · unfold fieldMaxGenerate; rw [fieldMaxRun_cons]; rfl
  · intro γ args node h
    rcases args with _ | ⟨a, t⟩
    · exact absurd h (by simp [fieldMinClone])
    · simp only [fieldMinClone, List.length_cons] at h
      rw [if_neg (Nat.succ_ne_zero _)] at h
      cases h
      exact List.cons_ne_nil a t
  · intro γ args node h
    rcases args with _ | ⟨a, t⟩
    · exact absurd h (by simp [fieldMaxClone])
    · simp only [fieldMaxClone, List.length_cons] at h
      rw [if_neg (Nat.succ_ne_zero _)] at h
      cases h
      exact List.cons_ne_nil a t

/-- C9, witness: the safety theorem applied at concrete inputs. -/
theorem c9_minmax_safety_witness :
    (([5] : List ℕ) ≠ []) ∧
    fieldMinGenerate fieldMinDefaultInput pos0 = none ∧
    (fieldMinGenerate [constQ 5] pos0).isSome = true := by
  have h := c9_minmax_safety
  exact ⟨h.2.2.1 ℕ [5] [5] rfl, (h.2.2.2.2 pos0).1,
    (h.2.1 (constQ 5) [] pos0).1⟩

/-- C3, counterexample: `FieldRound::clone` with 3 arguments throws the
fixed message `"round function must have one input"`, which does not
contain the actual argument count (the digit 3 does not occur in it), so
not every arity error message states the actual count. -/
theorem c3_counterexample :
    fieldRoundClone ([0, 1, 2] : List ℕ) =
      .error ⟨"round function must have one input"⟩ ∧
    containsSub (toString (3 : ℕ)).toList
      "round function must have one input".toList = false :=
  ⟨rfl, by decide⟩

/-- C3 (amended): every function node's `clone` enforces its exact arity
(1 for the unary template and `FieldRound`, 1 or 2 for `FieldATan`, 2 for
the binary template) and throws a `ParseException` on violation; the
templated unary/binary messages and the atan message state the expected
and the actual argument counts but name the function only generically
("function" / "atan"), while `FieldRound`'s message names the round
function and its one-argument requirement but omits the actual count. -/
theorem c3_arity_messages (γ : Type) (args : List γ) :
    (args.length ≠ 1 → fieldGenOneArgClone args =
      .error ⟨"Incorrect number of arguments to function. Expecting 1, got "
              ++ toString args.length⟩) ∧
    (∀ a, args = [a] → fieldGenOneArgClone args = .ok a) ∧
    (args.length ≠ 2 → fieldGenTwoArgClone args =
      .error ⟨"Incorrect number of arguments to function. Expecting 2, got "
              ++ toString args.length⟩) ∧
    (∀ a b, args = [a, b] → fieldGenTwoArgClone args = .ok (a, b)) ∧
    (args.length ≠ 1 → args.length ≠ 2 → fieldATanClone args =
      .error ⟨"Incorrect number of arguments to atan function. Expecting 1 or 2, got "
              ++ toString args.length⟩) ∧
    (args.length ≠ 1 → fieldRoundClone args =
      .error ⟨"round function must have one input"⟩) ∧
    (∀ a, args = [a] → fieldRoundClone args = .ok a) := by
  rcases args with _ | ⟨a, _ | ⟨b, _ | ⟨c, t⟩⟩⟩
  · exact ⟨fun _ => rfl, fun x hx => List.noConfusion hx, fun _ => rfl,
      fun x y hxy => List.noConfusion hxy, fun _ _ => rfl, fun _ => rfl,
      fun x hx => List.noConfusion hx⟩
  · refine ⟨fun h => absurd rfl h, ?_, fun _ => rfl, ?_,
      fun h1 _ => absurd rfl h1, fun h => absurd rfl h, ?_⟩
    · intro x hx; cases hx; rfl
    · intro x y hxy; simp at hxy
    · intro x hx; cases hx; rfl
  · refine ⟨fun _ => rfl, ?_, fun h => absurd rfl h, ?_,
      fun _ h2 => absurd rfl h2, fun _ => rfl, ?_⟩
    · intro x hx; simp at hx
    · intro x y hxy; cases hxy; rfl
    · intro x hx; simp at hx
  · refine ⟨fun _ => rfl, ?_, fun _ => rfl, ?_, fun _ _ => rfl, fun _ => rfl, ?_⟩
    · intro x hx; simp at hx
    · intro x y hxy; simp at hxy
    · intro x hx; simp at hx

/-- C3, witness: the arity theorem applied at concrete argument lists. -/
theorem c3_arity_messages_witness :
    fieldGenOneArgClone ([5, 6] : List ℕ) =
      .error ⟨"Incorrect number of arguments to function. Expecting 1, got 2"⟩ ∧
    fieldGenOneArgClone ([7] : List ℕ) = .ok 7 ∧
    fieldGenTwoArgClone ([5] : List ℕ) =
      .error ⟨"Incorrect number of arguments to function. Expecting 2, got 1"⟩ ∧
    fieldGenTwoArgClone ([5, 6] : List ℕ) = .ok (5, 6) ∧
    fieldATanClone ([5, 6, 7] : List ℕ) =
      .error ⟨"Incorrect number of arguments to atan function. Expecting 1 or 2, got 3"⟩ ∧
    fieldRoundClone ([] : List ℕ) = .error ⟨"round function must have one input"⟩ ∧
    fieldRoundClone ([7] : List ℕ) = .ok 7 := by
  have h2 := c3_arity_messages ℕ [5, 6]
  have h1 := c3_arity_messages ℕ [7]
  have h5 := c3_arity_messages ℕ [5]
  have h3 := c3_arity_messages ℕ [5, 6, 7]
  have h0 := c3_arity_messages ℕ []
  exact ⟨h2.1 (by decide), h1.2.1 7 rfl, h5.2.2.1 (by decide),
    h2.2.2.2.1 5 6 rfl, h3.2.2.2.2.1 (by decide) (by decide),
    h0.2.2.2.2.2.1 (by decide), h1.2.2.2.2.2.2 7 rfl⟩

/-- C4: `FieldRound::generate` rounds half away from zero — for a positive
child value it adds 0.5 and truncates toward zero (the floor of the
shifted value), for a non-positive child value it subtracts 0.5 and
truncates toward zero (the ceiling of the shifted value); in particular
2.4 ↦ 2, 2.5 ↦ 3, -2.5 ↦ -3, -2.4 ↦ -2. -/
theorem c4_round (g : GenQ) (pos : Context) :
    (0 < g pos → fieldRoundGenerate g pos = ((⌊g pos + 1/2⌋ : ℤ) : ℚ)) ∧
    (g pos ≤ 0 → fieldRoundGenerate g pos = ((⌈g pos - 1/2⌉ : ℤ) : ℚ)) ∧
    fieldRoundGenerate (constQ 2.4) pos = 2 ∧
    fieldRoundGenerate (constQ 2.5) pos = 3 ∧
    fieldRoundGenerate (constQ (-2.5)) pos = -3 ∧
    fieldRoundGenerate (constQ (-2.4)) pos = -2 := by
  refine ⟨?_, ?_, ?_, ?_, ?_, ?_⟩
  · intro h
    simp only [fieldRoundGenerate, rattrunc]
    rw [if_pos h, if_pos (by linarith : (0:ℚ) ≤ g pos + 1/2)]
  · intro h
    simp only [fieldRoundGenerate, rattrunc]
    rw [if_neg (not_lt.mpr h), if_neg (not_le.mpr (by linarith : g pos - 1/2 < 0))]
  · norm_num [fieldRoundGenerate, rattrunc, constQ]
  · norm_num [fieldRoundGenerate, rattrunc, constQ]
  · norm_num [fieldRoundGenerate, rattrunc, constQ]
    have hc : ⌈(-3 : ℚ)⌉ = (-3 : ℤ) := by
      rw [Int.ceil_eq_iff]
      norm_num
    rw [hc]
    norm_num
  · norm_num [fieldRoundGenerate, rattrunc, constQ]
    have hc : ⌈(-(29/10) : ℚ)⌉ = (-2 : ℤ) := by
      rw [Int.ceil_eq_iff]
      norm_num
    rw [hc]
    norm_num

/-- C4, witness: the rounding theorem applied at concrete child values. -/
theorem c4_round_witness :
    ((0:ℚ) < constQ 1 pos0 ∧
      fieldRoundGenerate (constQ 1) pos0 = ((⌊constQ 1 pos0 + 1/2⌋ : ℤ) : ℚ)) ∧
    (constQ (-1) pos0 ≤ (0:ℚ) ∧
      fieldRoundGenerate (constQ (-1)) pos0 = ((⌈constQ (-1) pos0 - 1/2⌉ : ℤ) : ℚ)) ∧
    fieldRoundGenerate (constQ 2.5) pos0 = 3 := by
  refine ⟨⟨by decide, (c4_round (constQ 1) pos0).1 (by decide)⟩,
    ⟨by decide, (c4_round (constQ (-1)) pos0).2.1 (by decide)⟩,
    (c4_round (constQ 1) pos0).2.2.2.1⟩

/-- C10: `FieldGenTwoArg<Op>::clone` with a two-element list preserves
argument order — the first element becomes operand `A` and the second
(last) becomes operand `B` — and the node's `generate` applies `Op` to
`A`'s value first and `B`'s value second. -/
theorem c10_twoarg_order {γ : Type} (Op : ℚ → ℚ → ℚ) (a b : γ)
    (A B : GenQ) (pos : Context) :
    fieldGenTwoArgClone [a, b] = .ok (a, b) ∧
    fieldGenTwoArgGenerate Op A B pos = Op (A pos) (B pos) :=
  ⟨rfl, rfl⟩

/-- C5: `FieldATan::clone` with one element builds a one-argument-arctan
node, with two elements an `atan2` node taking the first child as the `y`
argument and the second as the `x` argument, and throws on any other
size; numerically `atan(1) ≈ 0.785398`, `atan2(1,1) ≈ 0.785398` and
`atan2(1,-1) ≈ 2.35619`. -/
theorem c5_atan (a b c : Context → ℝ) (pos : Context) :
    fieldATanClone [a] = .ok (a, none) ∧
    fieldATanGenerate (a, none) pos = Real.arctan (a pos) ∧
    fieldATanClone [a, b] = .ok (a, some b) ∧
    fieldATanGenerate (a, some b) pos = atan2R (a pos) (b pos) ∧
    fieldATanClone [a, b, c] =
      .error ⟨"Incorrect number of arguments to atan function. Expecting 1 or 2, got 3"⟩ ∧
    |Real.arctan 1 - 0.785398| < 1 / 100000 ∧
    |atan2R 1 1 - 0.785398| < 1 / 100000 ∧
    |atan2R 1 (-1) - 2.35619| < 1 / 10000 := by
  have hone : |Real.arctan 1 - 0.785398| < (1 : ℝ) / 100000 := by
    rw [Real.arctan_one, abs_lt]
    constructor <;> linarith [Real.pi_gt_d6, Real.pi_lt_d6]
  have h11 : atan2R 1 1 = Real.arctan 1 := by
    unfold atan2R
    rw [if_pos (by norm_num : (0:ℝ) < 1)]
    norm_num
  have h1m1 : atan2R 1 (-1) = -(Real.pi / 4) + Real.pi := by
    unfold atan2R
    rw [if_neg (by norm_num : ¬ (0:ℝ) < -1), if_pos (by norm_num : (-1:ℝ) < 0),
      if_pos (by norm_num : (0:ℝ) ≤ 1),
      show (1:ℝ) / (-1) = -1 by norm_num, Real.arctan_neg, Real.arctan_one]
  refine ⟨rfl, rfl, rfl, rfl, ?_, hone, ?_, ?_⟩
  · rw [show fieldATanClone [a, b, c] =
        .error ⟨"Incorrect number of arguments to atan function. Expecting 1 or 2, got "
                ++ toString (3 : ℕ)⟩ from rfl]
    exact congrArg Except.error (by decide)
  · rw [h11]; exact hone
  · rw [h1m1, abs_lt]
    constructor <;> linarith [Real.pi_gt_d6, Real.pi_lt_d6]

/-- C6 (code defect): `FieldGenTwoArg<Op>::str` renders every binary
template node as `"cos(A,B)"` — the name of the unary cosine node, not
the wrapped function's name — and independently of `Op`; likewise
`FieldGenOneArg<Op>::str` renders the generic `"func(A)"`.  `FieldSin`
and `FieldHeaviside` do render under their own names. -/
theorem c6_str_codebug :
    (∀ (Op1 Op2 : ℚ → ℚ → ℚ) (aStr bStr : String),
      fieldGenTwoArgStr Op1 aStr bStr = fieldGenTwoArgStr Op2 aStr bStr) ∧
    fieldGenTwoArgStr (fun x y => x - y) "x" "y" = "cos(x,y)" ∧
    fieldGenTwoArgStr (fun x y => x - y) "x" "y" = fieldCosStr "x,y" ∧
    fieldGenOneArgStr (fun x => x * x) "x" = "func(x)" ∧
    fieldSinStr "x" = "sin(x)" ∧
    fieldHeavisideStr "x" = "H(x)" :=
  ⟨fun _ _ _ _ => rfl, by decide, by decide, by decide, by decide, by decide⟩

/-- C7: `FieldValuePtr::generate` dereferences its cell against the
current external memory on every call — the returned value is whatever
the cell currently holds, including after an external update — and
`clone` ignores its argument list entirely, returning a node bound to the
same cell. -/
theorem c7_valueptr {γ : Type} (ptr : ℕ) (m : Mem) (pos pos' : Context)
    (v : ℚ) (args : List γ) :
    fieldValuePtrGenerate ptr m pos = m ptr ∧
    fieldValuePtrGenerate ptr (memUpdate m ptr v) pos' = v ∧
    fieldValuePtrClone ptr args = ptr := by
  refine ⟨rfl, ?_, rfl⟩
  unfold fieldValuePtrGenerate memUpdate
  rw [if_pos rfl]

/-- C8: two `FieldMixmode` nodes constructed with the same seed hold
identical 14-entry phase tables (the table depends only on the seed, not
on the child) and their `generate` results agree on every Context; the
table is derived once at construction by the memoryless pseudo-random
function of the seed, and `generate` is a function of the stored node
state alone. -/
theorem c8_mixmode_determinism (genRand cosFn : ℚ → ℚ) (weight : Fin 14 → ℚ)
    (a a' : GenQ) (seed : ℚ) :
    (mkFieldMixmode genRand a seed).phase = (mkFieldMixmode genRand a' seed).phase ∧
    (∀ pos, fieldMixmodeGenerate cosFn weight (mkFieldMixmode genRand a seed) pos =
            fieldMixmodeGenerate cosFn weight (mkFieldMixmode genRand a seed) pos) ∧
    (∀ i : Fin 14, (mkFieldMixmode genRand a seed).phase i = genRand (seed + (i : ℕ))) ∧
    (List.ofFn (mkFieldMixmode genRand a seed).phase).length = 14 ∧
    (∀ n1 n2 : FieldMixmode, n1.arg = n2.arg → n1.phase = n2.phase →
      ∀ pos, fieldMixmodeGenerate cosFn weight n1 pos =
             fieldMixmodeGenerate cosFn weight n2 pos) := by
  refine ⟨rfl, fun _ => rfl, fun _ => rfl, by simp, ?_⟩
  intro n1 n2 harg hphase pos
  unfold fieldMixmodeGenerate
  rw [harg, hphase]

/-- C8, witness: the determinism theorem applied at a concrete model,
seed and pair of nodes. -/
theorem c8_mixmode_determinism_witness :
    (mkFieldMixmode (fun q => q) (constQ 0) 1).phase =
      (mkFieldMixmode (fun q => q) (constQ 5) 1).phase ∧
    fieldMixmodeGenerate (fun q => q) (fun _ => 1)
        (mkFieldMixmode (fun q => q) (constQ 0) 1) pos0 =
      fieldMixmodeGenerate (fun q => q) (fun _ => 1)
        (mkFieldMixmode (fun q => q) (constQ 0) 1) pos0 := by
  have h := c8_mixmode_determinism (fun q => q) (fun q => q) (fun _ => 1)
    (constQ 0) (constQ 5) 1
  exact ⟨h.1, h.2.2.2.2 _ _ rfl rfl pos0⟩
